import Mathlib

/-!
Shallow embedding of the ShopZada ETL pipeline
(scripts/00_ingest_all.py, scripts/01_profile_staging.py,
scripts/02_clean_staging.py, scripts/03_validate_curated.py,
scripts/utils.py) together with proofs about the specification claims.

Modelling conventions:
* a Python string is a list of Unicode code points (PyStr);
* a Python bytes object is a list of byte values (List Nat, each below 256);
* a DataFrame cell is a value of the inductive type Val; a DataFrame is a
  list of column names together with a list of rows (row-major, aligned
  with the column list);
* library calls whose full behaviour is irrelevant to the claims
  (pandas.to_datetime, pandas.read_json) are taken as explicit function
  parameters of the embedded code, so theorems quantify over them.
-/

namespace Shopzada

/-- Python strings as lists of Unicode code points. -/
abbrev PyStr : Type := List Nat

/-- Conversion from a Lean string literal to the PyStr model. -/
def str2py (s : String) : PyStr := s.data.map Char.toNat

/-- Code points that Python treats as whitespace, both for str.strip and for
the regular expression class backslash-s in unicode mode (the default):
ASCII whitespace and separators, NEL, NBSP, and the Unicode space
separators. -/
def pyIsSpace (c : Nat) : Bool :=
  (9 ≤ c && c ≤ 13) || (28 ≤ c && c ≤ 32) || c == 133 || c == 160 ||
  c == 0x1680 || (0x2000 ≤ c && c ≤ 0x200A) || c == 0x2028 || c == 0x2029 ||
  c == 0x202F || c == 0x205F || c == 0x3000

/-- ASCII decimal digits.  Python str.isdigit also accepts some non-ASCII
digit code points; the keys fed to it in this repository are ASCII. -/
def pyIsDigitChar (c : Nat) : Bool := 48 ≤ c && c ≤ 57

/-- Python str.isdigit: nonempty and every character a digit. -/
def pyIsDigit (s : PyStr) : Bool := !s.isEmpty && s.all pyIsDigitChar

/-- Number of characters above ASCII, the quantity compared by the helper
looks_more_unicode of scripts/02_clean_staging.py. -/
def nonAsciiCount (s : PyStr) : Nat := s.countP (fun c => 128 ≤ c)

/-- Model of str.encode with the latin-1 codec and errors equal to ignore:
every code point below 256 becomes the byte with its own value, larger code
points are dropped. -/
def encodeLatin1Ignore (s : PyStr) : List Nat := s.filter (fun c => c < 256)

/-- UTF-8 continuation byte test. -/
def contB (c : Nat) : Bool := 128 ≤ c && c < 192

/-- Valid first continuation byte of a three byte UTF-8 sequence with lead
byte b (CPython rejects overlong encodings and surrogates here). -/
def valid3First (b c : Nat) : Bool :=
  contB c && (b != 224 || 160 ≤ c) && (b != 237 || c < 160)

/-- Valid first continuation byte of a four byte UTF-8 sequence with lead
byte b. -/
def valid4First (b c : Nat) : Bool :=
  contB c && (b != 240 || 144 ≤ c) && (b != 244 || c < 144)

/-- One step of the UTF-8 decoder at a non-ASCII lead byte b followed by bs:
returns the decoded code point, when the bytes starting at b form a valid
sequence, and the remaining input.  On an invalid sequence it drops exactly
the bytes CPython's ignore error handler skips and resumes at the byte that
caused the failure. -/
def utf8Step (b : Nat) (bs : List Nat) : Option Nat × List Nat :=
  if b < 194 then (none, bs)
  else if b ≤ 223 then
    match bs with
    | [] => (none, [])
    | c :: r => if contB c then (some ((b - 192) * 64 + (c - 128)), r) else (none, c :: r)
  else if b ≤ 239 then
    match bs with
    | [] => (none, [])
    | c1 :: r1 =>
      if valid3First b c1 then
        match r1 with
        | [] => (none, [])
        | c2 :: r2 =>
          if contB c2 then (some (((b - 224) * 64 + (c1 - 128)) * 64 + (c2 - 128)), r2)
          else (none, c2 :: r2)
      else (none, c1 :: r1)
  else if b ≤ 244 then
    match bs with
    | [] => (none, [])
    | c1 :: r1 =>
      if valid4First b c1 then
        match r1 with
        | [] => (none, [])
        | c2 :: r2 =>
          if contB c2 then
            match r2 with
            | [] => (none, [])
            | c3 :: r3 =>
              if contB c3 then
                (some ((((b - 240) * 64 + (c1 - 128)) * 64 + (c2 - 128)) * 64 + (c3 - 128)), r3)
              else (none, c3 :: r3)
          else (none, c2 :: r2)
      else (none, c1 :: r1)
  else (none, bs)

/-- Fuel-indexed worker of the UTF-8 decoder; every step consumes at least
one byte, so fuel equal to the byte count always suffices. -/
def decodeUtf8IgnoreAux : Nat → List Nat → List Nat
  | _, [] => []
  | 0, _ :: _ => []
  | fuel + 1, b :: bs =>
    if b < 128 then b :: decodeUtf8IgnoreAux fuel bs
    else
      match utf8Step b bs with
      | (some cp, rest) => cp :: decodeUtf8IgnoreAux fuel rest
      | (none, rest) => decodeUtf8IgnoreAux fuel rest

/-- Model of bytes.decode with the utf-8 codec and errors equal to ignore. -/
def decodeUtf8Ignore (bs : List Nat) : List Nat := decodeUtf8IgnoreAux bs.length bs

/-- Model of unicodedata.normalize with the NFKC form, applied character by
character.  Only the code points exercised in this development are given
nontrivial images (NO-BREAK SPACE to SPACE, SUPERSCRIPT TWO to the digit
two, LATIN SMALL LIGATURE FI to the two letters f i); every other code
point appearing in this development is NFKC-invariant and is mapped to
itself.  Combining sequences, for which NFKC is not character-wise, do not
occur in this development. -/
def nfkcChar (c : Nat) : PyStr :=
  if c = 160 then [32]
  else if c = 178 then [50]
  else if c = 0xFB01 then [102, 105]
  else [c]

/-- Model of unicodedata.normalize applied to a whole string. -/
def nfkcStr (s : PyStr) : PyStr := s.flatMap nfkcChar

/-- Embeds the helper of scripts/02_clean_staging.py that decides whether the
re-decoded candidate string is kept: it compares the number of characters
above ASCII with a large-or-equal test. -/
def looks_more_unicode (candidate original : PyStr) : Bool :=
  nonAsciiCount original ≤ nonAsciiCount candidate

/-- Embeds the string-level body of the fallback fix_text_mojibake of
scripts/02_clean_staging.py (the branch used when the ftfy library is
unavailable): build the candidate by a latin-1 encode followed by a utf-8
decode, both ignoring errors, keep it when looks_more_unicode accepts it,
otherwise return the NFKC normalization of the original.  Neither encoding
step can raise with errors equal to ignore, so the surrounding try blocks
of the source have no effect. -/
def fixTextCore (s : PyStr) : PyStr :=
  let candidate := decodeUtf8Ignore (encodeLatin1Ignore s)
  if looks_more_unicode candidate s then candidate else nfkcStr s

/-- Model of str.strip with no argument: remove leading and trailing
whitespace. -/
def pyStrip (s : PyStr) : PyStr :=
  ((s.dropWhile pyIsSpace).reverse.dropWhile pyIsSpace).reverse

/-- Model of re.sub applied with the pattern of one-or-more whitespace and
the single-space replacement: every maximal whitespace run becomes one
space. -/
def pyCollapseWsAux : Nat → PyStr → PyStr
  | _, [] => []
  | 0, _ :: _ => []
  | fuel + 1, c :: r =>
    if pyIsSpace c then 32 :: pyCollapseWsAux fuel (r.dropWhile pyIsSpace)
    else c :: pyCollapseWsAux fuel r

/-- Whitespace collapsing at its sufficient fuel. -/
def pyCollapseWs (s : PyStr) : PyStr := pyCollapseWsAux s.length s

/-- Model of str.lower restricted to ASCII case folding; the geography and
category values this repository lowercases contain no cased characters
outside ASCII. -/
def pyLower (s : PyStr) : PyStr :=
  s.map (fun c => if 65 ≤ c && c ≤ 90 then c + 32 else c)

/-- Number of non-whitespace characters, the quantity preserved by
stripping and collapsing. -/
def nonWsCount (s : PyStr) : Nat := s.countP (fun c => !pyIsSpace c)

/-- Calendar date, as produced by the date method of a pandas Timestamp. -/
structure PDate where
  year : Int
  month : Int
  day : Int
deriving DecidableEq

/-- Model of a pandas Timestamp: a total order on instants (ord) together
with the calendar date the date method returns. -/
structure PTimestamp where
  ord : Int
  date : PDate
deriving DecidableEq

mutual

/-- Cell values of a DataFrame and decoded JSON or unpickled payload values.
A single null constructor models both Python None and the pandas missing
value NaN; the two are not distinguished by any claim.  Lists and dicts
are carried by the companion types ValList and ValDict so that equality
stays decidable. -/
inductive Val where
  | vnull : Val
  | vbool : Bool → Val
  | vint : Int → Val
  | vstr : PyStr → Val
  | vlist : ValList → Val
  | vdict : ValDict → Val
  | vts : PTimestamp → Val
  | vdate : PDate → Val

/-- List payload of a Val. -/
inductive ValList where
  | nil : ValList
  | cons : Val → ValList → ValList

/-- Dict payload of a Val: keys in insertion order with their values. -/
inductive ValDict where
  | nil : ValDict
  | cons : PyStr → Val → ValDict → ValDict

end

deriving instance DecidableEq for Val

/-- Elements of a list payload. -/
def ValList.toList : ValList → List Val
  | .nil => []
  | .cons v t => v :: ValList.toList t

/-- Entries of a dict payload, in insertion order. -/
def ValDict.entries : ValDict → List (PyStr × Val)
  | .nil => []
  | .cons k v t => (k, v) :: ValDict.entries t

/-- Builds a list payload from a Lean list. -/
def vlistOf (xs : List Val) : Val := .vlist (xs.foldr ValList.cons ValList.nil)

/-- Builds a dict payload from an association list in insertion order. -/
def vdictOfAux : List (PyStr × Val) → ValDict
  | [] => .nil
  | (k, v) :: t => .cons k v (vdictOfAux t)

/-- Dict value from an association list. -/
def vdictOf (xs : List (PyStr × Val)) : Val := .vdict (vdictOfAux xs)

/-- Mapping test corresponding to isinstance of dict. -/
def Val.isDict : Val → Bool
  | .vdict _ => true
  | _ => false

/-- Composite test corresponding to isinstance of dict or list, used by the
cell sanitizer of scripts/00_ingest_all.py. -/
def Val.isNested : Val → Bool
  | .vdict _ => true
  | .vlist _ => true
  | _ => false

/-- Model of the builtin str applied to a cell value.  Strings render as
themselves; the renderings of composite values and of timestamps are not
exercised by any claim and are given simple placeholder forms (CPython
would print reprs). -/
def pyStrOf : Val → PyStr
  | .vnull => str2py "None"
  | .vbool b => if b then str2py "True" else str2py "False"
  | .vint n => str2py (toString n)
  | .vstr s => s
  | .vlist _ => str2py "[...]"
  | .vdict _ => str2py "(dict)"
  | .vts t => str2py (toString t.ord)
  | .vdate d => str2py (toString d.year ++ "-" ++ toString d.month ++ "-" ++ toString d.day)

/-- Lowercase hexadecimal digit. -/
def hexDigit (n : Nat) : Nat := if n < 10 then 48 + n else 87 + n

/-- Four lowercase hexadecimal digits of a code unit. -/
def hex4 (c : Nat) : PyStr :=
  [hexDigit (c / 4096 % 16), hexDigit (c / 256 % 16), hexDigit (c / 16 % 16), hexDigit (c % 16)]

/-- Escaping of one character inside a JSON string produced by json.dumps
with its defaults (ensure_ascii true): the two-character escapes for the
usual control characters, backslash-u escapes (with surrogate pairs beyond
the basic plane) for other controls and for everything above ASCII. -/
def jsonEscapeChar (c : Nat) : PyStr :=
  if c = 34 then [92, 34]
  else if c = 92 then [92, 92]
  else if c = 10 then [92, 110]
  else if c = 13 then [92, 114]
  else if c = 9 then [92, 116]
  else if c = 8 then [92, 98]
  else if c = 12 then [92, 102]
  else if c < 32 then [92, 117] ++ hex4 c
  else if c < 127 then [c]
  else if c < 0x10000 then [92, 117] ++ hex4 c
  else
    [92, 117] ++ hex4 (0xD800 + (c - 0x10000) / 0x400) ++
      [92, 117] ++ hex4 (0xDC00 + (c - 0x10000) % 0x400)

/-- JSON string literal for s. -/
def jsonQuote (s : PyStr) : PyStr := [34] ++ s.flatMap jsonEscapeChar ++ [34]

mutual

/-- Model of json.dumps with default arguments.  The timestamp and date
variants would make CPython raise TypeError; they never reach the
sanitizer in the ingestion scripts (cells are raw JSON or unpickled
values there) and are rendered with placeholder forms. -/
def jsonDumps : Val → PyStr
  | .vnull => str2py "null"
  | .vbool b => if b then str2py "true" else str2py "false"
  | .vint n => str2py (toString n)
  | .vstr s => jsonQuote s
  | .vlist xs => [91] ++ jsonDumpsList xs ++ [93]
  | .vdict m => [123] ++ jsonDumpsDict m ++ [125]
  | .vts t => str2py (toString t.ord)
  | .vdate d => str2py (toString d.year)

/-- Comma separated renderings of a JSON array body. -/
def jsonDumpsList : ValList → PyStr
  | .nil => []
  | .cons x .nil => jsonDumps x
  | .cons x xs => jsonDumps x ++ [44, 32] ++ jsonDumpsList xs

/-- Comma separated renderings of a JSON object body. -/
def jsonDumpsDict : ValDict → PyStr
  | .nil => []
  | .cons k v .nil => jsonQuote k ++ [58, 32] ++ jsonDumps v
  | .cons k v ps => jsonQuote k ++ [58, 32] ++ jsonDumps v ++ [44, 32] ++ jsonDumpsDict ps

end

/-- Embeds fix_text_mojibake of scripts/02_clean_staging.py (fallback
branch): null in, null out; otherwise the string-level repair fixTextCore
applied to the str rendering of the value. -/
def fix_text_mojibake (val : Val) : Option PyStr :=
  match val with
  | .vnull => none
  | v => some (fixTextCore (pyStrOf v))

/-- Embeds normalize_unicode_text of scripts/02_clean_staging.py: null
passes through; otherwise mojibake repair, NFKC normalization, strip,
whitespace collapse, and the final guard mapping an empty result to null.
The surrounding try blocks of the source are dead in this model because
none of the steps can raise. -/
def normalize_unicode_text (val : Val) : Option PyStr :=
  match val with
  | .vnull => none
  | v =>
    let s1 := fixTextCore (pyStrOf v)
    let s2 := nfkcStr s1
    let s3 := pyCollapseWs (pyStrip s2)
    if s3.isEmpty then none else some s3

/-- Embeds parse_datetime_safe of scripts/02_clean_staging.py.  The pandas
to_datetime parser itself is a parameter; its coerce mode returning the
missing value is the none result. -/
def parse_datetime_safe (to_datetime : Val → Option PTimestamp) (val : Val) :
    Option PTimestamp :=
  match val with
  | .vnull => none
  | v => to_datetime v

/-- Embeds parse_date_safe of scripts/02_clean_staging.py: the calendar
date of the parsed timestamp. -/
def parse_date_safe (to_datetime : Val → Option PTimestamp) (val : Val) : Option PDate :=
  (parse_datetime_safe to_datetime val).map (fun t => t.date)

/-- Embeds clean_birthdate of scripts/02_clean_staging.py: parse as date,
then reject implausible ages (below 5 or above 110) and years before
1900.  The current date is a parameter. -/
def clean_birthdate (to_datetime : Val → Option PTimestamp) (today : PDate) (val : Val) :
    Option PDate :=
  match parse_date_safe to_datetime val with
  | none => none
  | some d =>
    let age := today.year - d.year -
      (if today.month < d.month ∨ (today.month = d.month ∧ today.day < d.day) then 1 else 0)
    if age < 5 ∨ 110 < age then none
    else if d.year < 1900 then none
    else some d

/-- Numeric value of a digit run. -/
def digitsVal (ds : PyStr) : Nat := ds.foldl (fun a c => a * 10 + (c - 48)) 0

/-- Leftmost match of an optional minus sign followed by a digit run, as
re.search with the embedded-integer pattern finds it. -/
def extractIntCore : PyStr → Option Int
  | [] => none
  | c :: r =>
    if pyIsDigitChar c then some (Int.ofNat (digitsVal ((c :: r).takeWhile pyIsDigitChar)))
    else if c = 45 && (match r with | d :: _ => pyIsDigitChar d | [] => false) then
      some (-(Int.ofNat (digitsVal (r.takeWhile pyIsDigitChar))))
    else extractIntCore r

/-- Embeds extract_int_from_string of scripts/02_clean_staging.py. -/
def extract_int_from_string (val : Val) : Option Int :=
  match val with
  | .vnull => none
  | v => extractIntCore (pyStrOf v)

/-- Embeds mask_credit_card of scripts/02_clean_staging.py: drop every
non-digit of the str rendering; with at least four digits left, emit the
fixed mask prefix and the last four digits, otherwise null. -/
def mask_credit_card (cc : Val) : Option PyStr :=
  match cc with
  | .vnull => none
  | v =>
    let s := (pyStrOf v).filter pyIsDigitChar
    if 4 ≤ s.length then some (str2py "**** **** **** " ++ s.drop (s.length - 4))
    else none

/-- Embeds apply_geo_fixes of scripts/02_clean_staging.py.  The correction
map (the repository's optional geo_fixes.csv, loaded by load_geo_map) is
passed explicitly as an association list with the insertion order of the
Python dict; null in, null out; otherwise try an exact lookup on the
stripped rendering, then the first case-insensitive match, and fall back
to the stripped rendering itself. -/
def apply_geo_fixes (gm : List (PyStr × PyStr)) (val : Val) : Option PyStr :=
  match val with
  | .vnull => none
  | v =>
    let s := pyStrip (pyStrOf v)
    match gm.find? (fun p => p.1 == s) with
    | some p => some p.2
    | none =>
      match gm.find? (fun p => pyLower p.1 == pyLower s) with
      | some p => some p.2
      | none => some s

/-- A pandas DataFrame: ordered column names and row-major cells, each row
aligned with the column list. -/
structure DF where
  cols : List PyStr
  rows : List (List Val)
deriving DecidableEq

/-- Index of a column name. -/
def DF.colIdx (df : DF) (name : PyStr) : Option Nat :=
  df.cols.findIdx? (fun c => c == name)

/-- Model of the pandas empty attribute: true when some axis has length
zero. -/
def DF.isEmptyDF (df : DF) : Bool := df.rows.isEmpty || df.cols.isEmpty

/-- Cells of the column at index i; a missing cell of a ragged row reads as
null. -/
def DF.colAt (df : DF) (i : Nat) : List Val := df.rows.map (fun r => r.getD i .vnull)

/-- Cells of a named column (empty when the column is absent). -/
def DF.colVals (df : DF) (name : PyStr) : List Val :=
  match df.colIdx name with
  | some i => df.colAt i
  | none => []

/-- Assigning the result of Series.apply back onto column i. -/
def DF.mapColAt (df : DF) (i : Nat) (f : Val → Val) : DF :=
  ⟨df.cols, df.rows.map (fun r => r.mapIdx (fun j c => if j = i then f c else c))⟩

/-- Guarded column transform: apply f to the named column when it exists,
otherwise leave the frame unchanged (the if-col-in-columns pattern of
scripts/02_clean_staging.py). -/
def DF.mapColIfPresent (df : DF) (name : PyStr) (f : Val → Val) : DF :=
  match df.colIdx name with
  | some i => df.mapColAt i f
  | none => df

/-- Unguarded column transform: a KeyError (absent column) propagates as an
error. -/
def DF.mapColE (df : DF) (name : PyStr) (f : Val → Val) : Except Unit DF :=
  match df.colIdx name with
  | some i => .ok (df.mapColAt i f)
  | none => .error ()

/-- Replace the cell at position i of a row through a fallible function. -/
def mapNthE (f : Val → Except Unit Val) : Nat → List Val → Except Unit (List Val)
  | _, [] => .ok []
  | 0, c :: r => do
    let c2 ← f c
    .ok (c2 :: r)
  | n + 1, c :: r => do
    let r2 ← mapNthE f n r
    .ok (c :: r2)

/-- Guarded column transform whose per-cell function can raise (used for
the lambda that calls lower on the result of normalize_unicode_text). -/
def DF.mapColCellsIfPresentE (df : DF) (name : PyStr) (f : Val → Except Unit Val) :
    Except Unit DF :=
  match df.colIdx name with
  | none => .ok df
  | some i => do
    let rows ← df.rows.mapM (mapNthE f i)
    .ok ⟨df.cols, rows⟩

/-- Column assignment: overwrite the named column when present, else append
it on the right, as pandas assignment does. -/
def DF.setCol (df : DF) (name : PyStr) (cells : List Val) : DF :=
  match df.colIdx name with
  | some i => ⟨df.cols, (df.rows.zip cells).map (fun p => p.1.set i p.2)⟩
  | none => ⟨df.cols ++ [name], (df.rows.zip cells).map (fun p => p.1 ++ [p.2])⟩

/-- Column projection df applied to a list of names; a KeyError (some name
absent) propagates as an error. -/
def DF.selectE (df : DF) (names : List PyStr) : Except Unit DF :=
  match names.mapM (fun n => df.colIdx n) with
  | some idxs => .ok ⟨names, df.rows.map (fun r => idxs.map (fun i => r.getD i .vnull))⟩
  | none => .error ()

/-- Model of DataFrame.rename on columns. -/
def DF.renameCols (df : DF) (m : List (PyStr × PyStr)) : DF :=
  ⟨df.cols.map (fun c =>
    match m.find? (fun p => p.1 == c) with
    | some p => p.2
    | none => c), df.rows⟩

/-- Elementwise missing test (pandas checknull) applied by Series.dropna
and by pd.notna to each entry of an array: false exactly on the null
value; list and dict cells count as present for it. -/
def pdNotna (c : Val) : Bool :=
  match c with
  | .vnull => false
  | _ => true

/-- Truth value of `if pd.notna(x)` as the sanitizer's encoding lambda
evaluates it.  On a scalar or a dict cell pd.notna answers one boolean;
on a list cell it answers elementwise, one boolean per entry, and taking
the truth value of that array succeeds only for a one-element list
(yielding the missing test of its single entry) and raises ValueError for
every other length. -/
def pdNotnaTruth : Val → Except Unit Bool
  | .vnull => .ok false
  | .vlist (.cons v .nil) => .ok (pdNotna v)
  | .vlist _ => .error ()
  | _ => .ok true

/-- One cell through the sanitizer's encoding lambda
json.dumps of x if pd.notna of x else None: the truth test can raise on a
list cell; otherwise the cell becomes its JSON text, or null. -/
def encodeCellJsonE (c : Val) : Except Unit Val := do
  let b ← pdNotnaTruth c
  pure (if b then Val.vstr (jsonDumps c) else Val.vnull)

/-- Decision of sanitize_nested_columns for one column: skip columns with
no cell surviving dropna, otherwise encode when some surviving cell is a
dict or a list (an isinstance test, so this detection pass never raises). -/
def colNeedsEncoding (cells : List Val) : Bool :=
  if (cells.filter pdNotna).isEmpty then false
  else (cells.filter pdNotna).any Val.isNested

/-- One row under the per-column encoding decision, cell by cell from
column index i on; the first raising cell aborts. -/
def sanitizeRowE (needs : Nat → Bool) : Nat → List Val → Except Unit (List Val)
  | _, [] => .ok []
  | i, c :: r => do
    let c2 ← if needs i then encodeCellJsonE c else .ok c
    let r2 ← sanitizeRowE needs (i + 1) r
    pure (c2 :: r2)

/-- Embeds sanitize_nested_columns of scripts/00_ingest_all.py: per
column, when some cell surviving dropna is composite, every cell of the
column goes through the encoding lambda, whose pd.notna truth test raises
ValueError on any list cell of length other than one (the error escapes
to ingest_file, which logs it and skips the file).  The source walks
column by column and this model row by row: both raise exactly when some
column selected for encoding holds such a list cell, and otherwise build
the same frame. -/
def sanitize_nested_columns (df : DF) : Except Unit DF := do
  let rows ← df.rows.mapM (sanitizeRowE (fun i => colNeedsEncoding (df.colAt i)) 0)
  pure ⟨df.cols, rows⟩

/-- Value of dict.get with default None. -/
def dictGet (d : ValDict) (k : PyStr) : Val :=
  match d.entries.find? (fun p => p.1 == k) with
  | some p => p.2
  | none => .vnull

/-- Union of the inner keys of a dict-of-dicts payload, one occurrence per
key. -/
def unionInnerKeys (m : List (PyStr × Val)) : List PyStr :=
  (m.flatMap (fun p =>
    match p.2 with
    | .vdict d => d.entries.map Prod.fst
    | _ => [])).dedup

/-- Insertion of one element into a list sorted by the boolean relation. -/
def insertSorted (le : α → α → Bool) (a : α) : List α → List α
  | [] => [a]
  | b :: bs => if le a b then a :: b :: bs else b :: insertSorted le a bs

/-- Insertion sort by a boolean relation. -/
def sortByLe (le : α → α → Bool) (l : List α) : List α := l.foldr (insertSorted le) []

/-- Lexicographic comparison of code point lists, the order Python uses on
strings. -/
def lexLeNat : List Nat → List Nat → Bool
  | [], _ => true
  | _ :: _, [] => false
  | a :: as, b :: bs => if a < b then true else if b < a then false else lexLeNat as bs

/-- Embeds the key sort of the dict-of-dicts loaders: when every key is a
digit string the keys sort numerically, otherwise they sort as strings
(for mixed keys the integer-against-string comparison of the first attempt
raises and the source falls back to string sorting).  Iteration order of
the Python set, which decides ties between numerically equal digit keys,
is not modelled. -/
def sortInnerKeys (ks : List PyStr) : List PyStr :=
  if ks.all pyIsDigit then sortByLe (fun a b => digitsVal a ≤ digitsVal b) ks
  else sortByLe lexLeNat ks

/-- Embeds the row construction of the dict-of-dicts branch of
load_json_flex (scripts/00_ingest_all.py lines 80 to 88): one row per
sorted inner key, reading each column by get with a null default. -/
def dodRowsJson (m : List (PyStr × Val)) (ks : List PyStr) : List (List Val) :=
  ks.map (fun k => m.map (fun p =>
    match p.2 with
    | .vdict d => dictGet d k
    | _ => .vnull))

/-- Embeds the dict-of-dicts branch of load_json_flex: outer keys are the
columns, rows are rebuilt over the sorted union of inner keys. -/
def load_json_dict_of_dicts (m : List (PyStr × Val)) : DF :=
  ⟨m.map Prod.fst, dodRowsJson m (sortInnerKeys (unionInnerKeys m))⟩

/-- Model of the DataFrame constructor on a list of records: columns are
the union of the record keys in first-appearance order, missing keys read
as null. -/
def pdDataFrameOfRecords (xs : List Val) : DF :=
  let cols := xs.foldl (fun acc v =>
    match v with
    | .vdict m => acc ++ ((m.entries.map Prod.fst).filter (fun k => !acc.contains k))
    | _ => acc) []
  ⟨cols, xs.map (fun v =>
    match v with
    | .vdict m => cols.map (fun k => dictGet m k)
    | _ => [])⟩

/-- Model of the DataFrame constructor on a decoded JSON list: records give
the record table, a list of scalars gives the single positional column
(whose integer name 0 is modelled as the string 0).  Mixed lists are not
exercised by any claim. -/
def pdDataFrameOfList (xs : List Val) : DF :=
  if xs.all Val.isDict then pdDataFrameOfRecords xs
  else ⟨[str2py "0"], xs.map (fun v => [v])⟩

/-- Model of the one-row wrap pd.DataFrame applied to the singleton list of
the payload, the last resort of load_json_flex. -/
def pdSingleRowWrap (obj : Val) : DF :=
  match obj with
  | .vdict m => ⟨m.entries.map Prod.fst, [m.entries.map Prod.snd]⟩
  | v => ⟨[str2py "0"], [[v]]⟩

/-- The read_json fallback of load_json_flex: the pandas parser is a
parameter; when it raises (none) the payload is wrapped as a single row. -/
def jsonFallback (read_json : Val → Option DF) (obj : Val) : DF :=
  match read_json obj with
  | some df => df
  | none => pdSingleRowWrap obj

/-- Embeds load_json_flex of scripts/00_ingest_all.py.  The payload of a
file with the JSON extension is given as the list of JSON records standing
one per line; json.load succeeds exactly on a one-record payload (on
anything else it raises the Extra data or empty-document error, which no
caller of load_json_flex catches), then the dict-of-dicts branch, the
list branch, and the read_json fallback apply in order. -/
def load_json_flex (read_json : Val → Option DF) (payload : List Val) : Except Unit DF :=
  match payload with
  | [obj] =>
    .ok (match obj with
      | .vdict m =>
        if m.entries.all (fun p => p.2.isDict) then load_json_dict_of_dicts m.entries
        else jsonFallback read_json (.vdict m)
      | .vlist xs => pdDataFrameOfList xs.toList
      | v => jsonFallback read_json v)
  | _ => .error ()

/-- Recency comparison used by the reconciler sort: descending on present
timestamps, missing timestamps last (the pandas default na_position). -/
def tsLE : Option Int → Option Int → Bool
  | _, none => true
  | none, some _ => false
  | some a, some b => b ≤ a

/-- Worker of drop_duplicates keep first: seen keys accumulate. -/
def dropDupFirstKeyAux {κ ρ : Type} [DecidableEq κ] (key : ρ → κ) :
    List κ → List ρ → List ρ
  | _, [] => []
  | seen, r :: rs =>
    if key r ∈ seen then dropDupFirstKeyAux key seen rs
    else r :: dropDupFirstKeyAux key (key r :: seen) rs

/-- Model of DataFrame.drop_duplicates with keep first on a key column. -/
def dropDupFirstKey {κ ρ : Type} [DecidableEq κ] (key : ρ → κ) (l : List ρ) : List ρ :=
  dropDupFirstKeyAux key [] l

/-- Embeds the deduplication step shared by build_dim_users (lines 303 to
306) and build_fact_orders (lines 379 to 382) of
scripts/02_clean_staging.py: when the recency column exists, sort by it
descending (missing last), then keep the first row per key.  The pandas
default quicksort is not stable; this model produces one particular
sorted permutation, and nothing proved below depends on the order of
rows whose timestamps tie. -/
def dedupeLatest {κ ρ : Type} [DecidableEq κ] (hasTs : Bool) (key : ρ → κ)
    (ts : ρ → Option Int) (l : List ρ) : List ρ :=
  dropDupFirstKey key (if hasTs then sortByLe (fun a b => tsLE (ts a) (ts b)) l else l)

/-- Result of one entity builder: the tables it wrote, the warnings it
printed, and its return value. -/
structure BuildOut where
  writes : List (String × DF)
  warnings : List String
  result : DF
deriving DecidableEq

/-- Cell transform of astype(str) followed by str.strip. -/
def astypeStrStripCell (c : Val) : Val := .vstr (pyStrip (pyStrOf c))

/-- Cell transform wrapping normalize_unicode_text. -/
def normalizeCell (c : Val) : Val :=
  match normalize_unicode_text c with
  | some s => .vstr s
  | none => .vnull

/-- Cell transform wrapping apply_geo_fixes. -/
def geoFixCell (gm : List (PyStr × PyStr)) (c : Val) : Val :=
  match apply_geo_fixes gm c with
  | some s => .vstr s
  | none => .vnull

/-- Cell transform of the lambda applying lower to the result of
normalize_unicode_text under a notna guard: when the normalizer returns
None for a non-null cell (whitespace-only text) the attribute access on
None raises, modelled as an error. -/
def normalizeLowerCellE (c : Val) : Except Unit Val :=
  match c with
  | .vnull => .ok .vnull
  | v =>
    match normalize_unicode_text v with
    | some s => .ok (.vstr (pyLower s))
    | none => .error ()

/-- Timestamp of a cell for the recency sort (missing on anything that is
not a timestamp). -/
def tsOfCell : Val → Option Int
  | .vts t => some t.ord
  | _ => none

/-- Cell transform wrapping parse_datetime_safe. -/
def parseDatetimeCell (to_datetime : Val → Option PTimestamp) (c : Val) : Val :=
  match parse_datetime_safe to_datetime c with
  | some t => .vts t
  | none => .vnull

/-- Cell transform wrapping clean_birthdate. -/
def cleanBirthdateCell (to_datetime : Val → Option PTimestamp) (today : PDate) (c : Val) : Val :=
  match clean_birthdate to_datetime today c with
  | some d => .vdate d
  | none => .vnull

/-- The guarded free-text columns of build_dim_users. -/
def userTextCols : List PyStr :=
  [str2py "name", str2py "street", str2py "city", str2py "state", str2py "country"]

/-- The curated column set of cur_dim_users. -/
def curUserCols : List PyStr :=
  [str2py "user_id", str2py "name", str2py "creation_date", str2py "birthdate",
   str2py "gender", str2py "user_type", str2py "street", str2py "city",
   str2py "state", str2py "country", str2py "device_address"]

/-- Embeds build_dim_users of scripts/02_clean_staging.py.  The input is
the frame safe_read_table returned for stg_user_data (an empty frame both
for an absent and for an empty staging table); pandas to_datetime and the
current date are parameters.  On an empty source the builder warns and
returns a fresh empty frame WITHOUT writing anything; otherwise it cleans,
deduplicates on user_id by newest creation_date, projects the curated
columns (a KeyError on a missing projection column is an error), and
writes cur_dim_users. -/
def build_dim_users (to_datetime : Val → Option PTimestamp) (today : PDate)
    (gm : List (PyStr × PyStr)) (stg : DF) : Except Unit BuildOut :=
  if stg.isEmptyDF then
    .ok ⟨[], ["[WARN] stg_user_data empty or missing"], ⟨[], []⟩⟩
  else do
    let df ← stg.mapColE (str2py "user_id") astypeStrStripCell
    let df := userTextCols.foldl (fun d c =>
      (d.mapColIfPresent c normalizeCell).mapColIfPresent c (geoFixCell gm)) df
    let df := df.mapColIfPresent (str2py "creation_date") (parseDatetimeCell to_datetime)
    let df := df.mapColIfPresent (str2py "birthdate") (cleanBirthdateCell to_datetime today)
    let df ← df.mapColCellsIfPresentE (str2py "device_address") normalizeLowerCellE
    let df ← df.mapColCellsIfPresentE (str2py "user_type") normalizeLowerCellE
    let df ← df.mapColCellsIfPresentE (str2py "gender") normalizeLowerCellE
    match df.colIdx (str2py "user_id") with
    | none => .error ()
    | some ui =>
      let tsIdx := df.colIdx (str2py "creation_date")
      let rows := dedupeLatest tsIdx.isSome (fun (r : List Val) => r.getD ui Val.vnull)
        (fun (r : List Val) =>
          match tsIdx with
          | some ci => tsOfCell (r.getD ci .vnull)
          | none => none) df.rows
      let df2 : DF := ⟨df.cols, rows⟩
      let cur ← df2.selectE curUserCols
      .ok ⟨[("cur_dim_users", cur)], [], cur⟩

/-- Model of pd.concat with ignore_index and sort false: columns united in
first-appearance order, missing cells null. -/
def concatDFs (parts : List DF) : DF :=
  let cols := parts.foldl (fun acc df => acc ++ df.cols.filter (fun c => !acc.contains c)) []
  ⟨cols, parts.flatMap (fun df => df.rows.map (fun r => cols.map (fun c =>
    match df.colIdx c with
    | some i => r.getD i .vnull
    | none => .vnull)))⟩

/-- Embeds build_fact_orders of scripts/02_clean_staging.py.  The input
list holds the frames safe_read_table returned for the six time-sliced
order staging tables.  With every part empty the builder warns and
returns a fresh empty frame WITHOUT writing anything; otherwise it
concatenates, normalizes ids, derives timestamp and date and
arrival-days columns, deduplicates on order_id by newest transaction
timestamp (drop_duplicates raises when order_id is absent), projects
whatever curated columns exist, renames them, and writes
cur_fact_orders. -/
def build_fact_orders (to_datetime : Val → Option PTimestamp) (tables : List DF) :
    Except Unit BuildOut :=
  let parts := tables.filter (fun t => !t.isEmptyDF)
  if parts.isEmpty then
    .ok ⟨[], ["[WARN] no order tables found"], ⟨[], []⟩⟩
  else do
    let orders := concatDFs parts
    let orders := orders.mapColIfPresent (str2py "order_id") astypeStrStripCell
    let orders := orders.mapColIfPresent (str2py "user_id") astypeStrStripCell
    let orders :=
      match orders.colIdx (str2py "transaction_date") with
      | some ti =>
        let o2 := orders.setCol (str2py "transaction_ts")
          ((orders.colAt ti).map (parseDatetimeCell to_datetime))
        o2.setCol (str2py "transaction_date_clean")
          ((o2.colVals (str2py "transaction_ts")).map (fun (c : Val) =>
            match c with
            | .vts t => .vdate t.date
            | _ => .vnull))
      | none => orders
    let orders :=
      match orders.colIdx (str2py "estimated_arrival") with
      | some ei =>
        orders.setCol (str2py "estimated_arrival_days")
          ((orders.colAt ei).map (fun (c : Val) =>
            match extract_int_from_string c with
            | some n => .vint n
            | none => .vnull))
      | none => orders
    match orders.colIdx (str2py "order_id") with
    | none => .error ()
    | some oi =>
      let tsIdx := orders.colIdx (str2py "transaction_ts")
      let rows := dedupeLatest tsIdx.isSome (fun (r : List Val) => r.getD oi Val.vnull)
        (fun (r : List Val) =>
          match tsIdx with
          | some ci => tsOfCell (r.getD ci .vnull)
          | none => none) orders.rows
      let orders2 : DF := ⟨orders.cols, rows⟩
      let keep := [str2py "order_id", str2py "user_id", str2py "transaction_date_clean",
        str2py "transaction_ts", str2py "estimated_arrival_days"].filter
          (fun c => (orders2.colIdx c).isSome)
      let cur ← orders2.selectE keep
      let cur := cur.renameCols
        [(str2py "transaction_date_clean", str2py "transaction_date"),
         (str2py "transaction_ts", str2py "transaction_timestamp")]
      .ok ⟨[("cur_fact_orders", cur)], [], cur⟩

/-- Embeds count_fk_mismatches of scripts/03_validate_curated.py: minus one
when either key column is absent; otherwise the number of CHILD ROWS whose
str rendering is not among the str renderings of the parent key column
(nulls stringify and are counted like any value). -/
def count_fk_mismatches (df_child df_parent : DF) (child_key parent_key : PyStr) : Int :=
  if (df_child.colIdx child_key).isNone || (df_parent.colIdx parent_key).isNone then -1
  else
    let parentSet := (df_parent.colVals parent_key).map pyStrOf
    ((df_child.colVals child_key).filter (fun v => !parentSet.contains (pyStrOf v))).length

/-- Embeds fk_missing_count of scripts/01_profile_staging.py, the SQL
count over the left join: distinct non-null child keys with no equal
parent key.  The none result models the exception branch (a database
error, for instance an absent column). -/
def fk_missing_count (child parent : DF) (child_col parent_col : PyStr) : Option Int :=
  match child.colIdx child_col, parent.colIdx parent_col with
  | some _, some _ =>
    some (((child.colVals child_col).filter (fun v =>
      !(v == Val.vnull) && !(parent.colVals parent_col).contains v)).dedup.length)
  | _, _ => none

/-- States the specification's words for the foreign-key mismatch count,
for comparison with the two implementations: the number of distinct
child-side key values that do not appear in the parent key column,
child-side nulls excluded. -/
def specFkDistinctMissing (child parent : DF) (child_col parent_col : PyStr) : Nat :=
  ((child.colVals child_col).toFinset.filter (fun v =>
    v ≠ Val.vnull ∧ v ∉ (parent.colVals parent_col).toFinset)).card

theorem utf8Step_rest_le (b : Nat) (bs : List Nat) :
    (utf8Step b bs).2.length ≤ bs.length := by
  unfold utf8Step
  repeat' split
  all_goals simp_all
  all_goals omega

theorem decodeUtf8IgnoreAux_fuel :
    ∀ f1 f2 : Nat, ∀ bs : List Nat, bs.length ≤ f1 → bs.length ≤ f2 →
      decodeUtf8IgnoreAux f1 bs = decodeUtf8IgnoreAux f2 bs := by
  intro f1
  induction f1 with
  | zero =>
    intro f2 bs h1 _
    have hbs : bs = [] := by
      cases bs
      · rfl
      · simp at h1
    subst hbs
    cases f2 <;> rfl
  | succ f ih =>
    intro f2 bs h1 h2
    cases bs with
    | nil => cases f2 <;> rfl
    | cons b bs =>
      cases f2 with
      | zero => simp at h2
      | succ g =>
        simp only [List.length_cons] at h1 h2
        simp only [decodeUtf8IgnoreAux]
        by_cases hlt : b < 128
        · rw [if_pos hlt, if_pos hlt, ih g bs (by omega) (by omega)]
        · rw [if_neg hlt, if_neg hlt]
          have hr := utf8Step_rest_le b bs
          rcases hstep : utf8Step b bs with ⟨o, rest⟩
          rw [hstep] at hr
          simp only at hr
          cases o with
          | none => exact ih g rest (by omega) (by omega)
          | some cp => exact congrArg (fun t => cp :: t) (ih g rest (by omega) (by omega))

theorem decodeUtf8Ignore_nil : decodeUtf8Ignore [] = [] := rfl

theorem decodeUtf8Ignore_cons_low (b : Nat) (bs : List Nat) (h : b < 128) :
    decodeUtf8Ignore (b :: bs) = b :: decodeUtf8Ignore bs := by
  simp only [decodeUtf8Ignore, List.length_cons, decodeUtf8IgnoreAux, if_pos h]

theorem decodeUtf8Ignore_cons_some (b : Nat) (bs : List Nat) (hlt : ¬ b < 128)
    (cp : Nat) (rest : List Nat) (h : utf8Step b bs = (some cp, rest)) :
    decodeUtf8Ignore (b :: bs) = cp :: decodeUtf8Ignore rest := by
  have hr := utf8Step_rest_le b bs
  rw [h] at hr
  simp only at hr
  simp only [decodeUtf8Ignore, List.length_cons, decodeUtf8IgnoreAux, if_neg hlt]
  rw [h]
  simp only [List.cons_inj_right]
  exact decodeUtf8IgnoreAux_fuel bs.length rest.length rest hr le_rfl

theorem decodeUtf8Ignore_cons_none (b : Nat) (bs : List Nat) (hlt : ¬ b < 128)
    (rest : List Nat) (h : utf8Step b bs = (none, rest)) :
    decodeUtf8Ignore (b :: bs) = decodeUtf8Ignore rest := by
  have hr := utf8Step_rest_le b bs
  rw [h] at hr
  simp only at hr
  simp only [decodeUtf8Ignore, List.length_cons, decodeUtf8IgnoreAux, if_neg hlt]
  rw [h]
  exact decodeUtf8IgnoreAux_fuel bs.length rest.length rest hr le_rfl

theorem decodeUtf8Ignore_ascii :
    ∀ bs : List Nat, (∀ b ∈ bs, b < 128) → decodeUtf8Ignore bs = bs := by
  intro bs
  induction bs with
  | nil => intro _; rfl
  | cons b bs ih =>
    intro hb
    have hlt : b < 128 := hb b (List.mem_cons_self b bs)
    rw [decodeUtf8Ignore_cons_low b bs hlt,
      ih (fun x hx => hb x (List.mem_cons_of_mem b hx))]

theorem utf8Step_spec (b : Nat) (bs : List Nat) (hb : 128 ≤ b) :
    nonAsciiCount (utf8Step b bs).2 ≤ nonAsciiCount bs ∧
    (∀ cp rest, utf8Step b bs = (some cp, rest) →
      128 ≤ cp ∧ 1 + nonAsciiCount rest ≤ nonAsciiCount bs) := by
  unfold utf8Step
  repeat' split
  all_goals simp_all [nonAsciiCount, contB, valid3First, valid4First, List.countP_cons]
  all_goals omega

theorem decodeUtf8Ignore_nonAscii_le (bs0 : List Nat) :
    2 * nonAsciiCount (decodeUtf8Ignore bs0) ≤ nonAsciiCount bs0 := by
  suffices H : ∀ n : Nat, ∀ bs : List Nat, bs.length ≤ n →
      2 * nonAsciiCount (decodeUtf8Ignore bs) ≤ nonAsciiCount bs from H bs0.length bs0 le_rfl
  intro n
  induction n with
  | zero =>
    intro bs h
    have hbs : bs = [] := by
      cases bs
      · rfl
      · simp at h
    subst hbs
    simp [decodeUtf8Ignore_nil, nonAsciiCount]
  | succ n ih =>
    intro bs h
    cases bs with
    | nil => simp [decodeUtf8Ignore_nil, nonAsciiCount]
    | cons b bs =>
      simp only [List.length_cons] at h
      by_cases hlt : b < 128
      · rw [decodeUtf8Ignore_cons_low b bs hlt]
        have hih := ih bs (by omega)
        simp only [nonAsciiCount, List.countP_cons] at *
        split <;> simp_all <;> omega
      · have hb : 128 ≤ b := by omega
        rcases hstep : utf8Step b bs with ⟨o, rest⟩
        have hr := utf8Step_rest_le b bs
        rw [hstep] at hr
        simp only at hr
        cases o with
        | some cp =>
          have hspec := (utf8Step_spec b bs hb).2 cp rest hstep
          rw [decodeUtf8Ignore_cons_some b bs hlt cp rest hstep]
          have hih := ih rest (by omega)
          simp only [nonAsciiCount, List.countP_cons] at *
          split <;> split <;> simp_all <;> omega
        | none =>
          have hspec := (utf8Step_spec b bs hb).1
          rw [hstep] at hspec
          rw [decodeUtf8Ignore_cons_none b bs hlt rest hstep]
          have hih := ih rest (by omega)
          simp only [nonAsciiCount, List.countP_cons] at *
          split <;> simp_all <;> omega

theorem decodeUtf8Ignore_no_lead (bs0 : List Nat) (hb0 : ∀ b ∈ bs0, b < 194) :
    decodeUtf8Ignore bs0 = bs0.filter (fun b => b < 128) := by
  suffices H : ∀ n : Nat, ∀ bs : List Nat, bs.length ≤ n → (∀ b ∈ bs, b < 194) →
      decodeUtf8Ignore bs = bs.filter (fun b => b < 128) from H bs0.length bs0 le_rfl hb0
  intro n
  induction n with
  | zero =>
    intro bs h _
    have hbs : bs = [] := by
      cases bs
      · rfl
      · simp at h
    subst hbs
    rfl
  | succ n ih =>
    intro bs h hb
    cases bs with
    | nil => rfl
    | cons b bs =>
      simp only [List.length_cons] at h
      have h194 : b < 194 := hb b (List.mem_cons_self b bs)
      by_cases hlt : b < 128
      · rw [decodeUtf8Ignore_cons_low b bs hlt,
          ih bs (by omega) (fun x hx => hb x (List.mem_cons_of_mem b hx))]
        simp [hlt]
      · have hstep : utf8Step b bs = (none, bs) := by
          unfold utf8Step
          rw [if_pos h194]
        rw [decodeUtf8Ignore_cons_none b bs hlt bs hstep,
          ih bs (by omega) (fun x hx => hb x (List.mem_cons_of_mem b hx))]
        simp [hlt]

theorem nfkcStr_ascii (s : PyStr) (hs : ∀ c ∈ s, c < 128) : nfkcStr s = s := by
  induction s with
  | nil => rfl
  | cons c cs ih =>
    have hc : c < 128 := hs c (List.mem_cons_self c cs)
    have h1 : c ≠ 160 := by omega
    have h2 : c ≠ 178 := by omega
    have h3 : c ≠ 0xFB01 := by omega
    simp only [nfkcStr, List.flatMap_cons] at *
    rw [nfkcChar, if_neg h1, if_neg h2, if_neg h3]
    simp only [List.singleton_append, List.cons_inj_right]
    exact ih (fun x hx => hs x (List.mem_cons_of_mem c hx))

theorem nonAsciiCount_encode_le (s : PyStr) :
    nonAsciiCount (encodeLatin1Ignore s) ≤ nonAsciiCount s :=
  List.Sublist.countP_le _ (List.filter_sublist s)

/-- Main helper about the fallback mojibake repair of
scripts/02_clean_staging.py: the re-decoded candidate is accepted by
looks_more_unicode exactly when the original is pure ASCII, in which case
the candidate IS the original; consequently the whole function coincides
extensionally with NFKC normalization of its input. -/
theorem fixTextCore_eq_nfkc (s : PyStr) : fixTextCore s = nfkcStr s := by
  unfold fixTextCore looks_more_unicode
  by_cases h : nonAsciiCount s = 0
  · have hascii : ∀ c ∈ s, c < 128 := by
      intro c hc
      have := List.countP_eq_zero.mp h c hc
      simp at this
      omega
    have henc : encodeLatin1Ignore s = s := by
      unfold encodeLatin1Ignore
      rw [List.filter_eq_self]
      intro a ha
      have := hascii a ha
      simp
      omega
    simp only [henc, decodeUtf8Ignore_ascii s hascii]
    rw [if_pos (by simp)]
    rw [nfkcStr_ascii s hascii]
  · have h1 := decodeUtf8Ignore_nonAscii_le (encodeLatin1Ignore s)
    have h2 := nonAsciiCount_encode_le s
    have hcond : ¬ (nonAsciiCount s ≤
        nonAsciiCount (decodeUtf8Ignore (encodeLatin1Ignore s))) := by omega
    simp [hcond]

/-- Acceptance by looks_more_unicode happens exactly when the candidate
equals the original (pure-ASCII inputs round-trip unchanged). -/
theorem looks_more_unicode_iff (s : PyStr) :
    looks_more_unicode (decodeUtf8Ignore (encodeLatin1Ignore s)) s = true ↔
      decodeUtf8Ignore (encodeLatin1Ignore s) = s := by
  constructor
  · intro hacc
    unfold looks_more_unicode at hacc
    simp at hacc
    have h1 := decodeUtf8Ignore_nonAscii_le (encodeLatin1Ignore s)
    have h2 := nonAsciiCount_encode_le s
    have h0 : nonAsciiCount s = 0 := by omega
    have hascii : ∀ c ∈ s, c < 128 := by
      intro c hc
      have := List.countP_eq_zero.mp h0 c hc
      simp at this
      omega
    have henc : encodeLatin1Ignore s = s := by
      unfold encodeLatin1Ignore
      rw [List.filter_eq_self]
      intro a ha
      have := hascii a ha
      simp
      omega
    rw [henc, decodeUtf8Ignore_ascii s hascii]
  · intro heq
    rw [heq]
    simp [looks_more_unicode]

theorem exists_cons_of_ne_nil {α : Type} {l : List α} (h : l ≠ []) :
    ∃ y ys, l = y :: ys := by
  cases l with
  | nil => exact absurd rfl h
  | cons y ys => exact ⟨y, ys, rfl⟩

theorem pyCollapseWsAux_fuel :
    ∀ f1 f2 : Nat, ∀ l : PyStr, l.length ≤ f1 → l.length ≤ f2 →
      pyCollapseWsAux f1 l = pyCollapseWsAux f2 l := by
  intro f1
  induction f1 with
  | zero =>
    intro f2 l h1 _
    have hl : l = [] := by
      cases l
      · rfl
      · simp at h1
    subst hl
    cases f2 <;> rfl
  | succ f ih =>
    intro f2 l h1 h2
    cases l with
    | nil => cases f2 <;> rfl
    | cons c r =>
      cases f2 with
      | zero => simp at h2
      | succ g =>
        simp only [List.length_cons] at h1 h2
        simp only [pyCollapseWsAux]
        by_cases hws : pyIsSpace c
        · rw [if_pos hws, if_pos hws]
          have hd := (List.dropWhile_sublist (l := r) (p := pyIsSpace)).length_le
          rw [ih g (r.dropWhile pyIsSpace) (by omega) (by omega)]
        · rw [if_neg hws, if_neg hws, ih g r (by omega) (by omega)]

theorem pyCollapseWs_nil : pyCollapseWs [] = [] := rfl

theorem pyCollapseWs_cons_ws (c : Nat) (r : PyStr) (h : pyIsSpace c = true) :
    pyCollapseWs (c :: r) = 32 :: pyCollapseWs (r.dropWhile pyIsSpace) := by
  simp only [pyCollapseWs, List.length_cons, pyCollapseWsAux, h, if_true]
  have hd := (List.dropWhile_sublist (l := r) (p := pyIsSpace)).length_le
  rw [pyCollapseWsAux_fuel r.length (r.dropWhile pyIsSpace).length (r.dropWhile pyIsSpace) hd
    le_rfl]

theorem pyCollapseWs_cons_nws (c : Nat) (r : PyStr) (h : pyIsSpace c = false) :
    pyCollapseWs (c :: r) = c :: pyCollapseWs r := by
  simp only [pyCollapseWs, List.length_cons, pyCollapseWsAux, h]
  simp

theorem nonWsCount_dropWhile (l : PyStr) :
    nonWsCount (l.dropWhile pyIsSpace) = nonWsCount l := by
  conv_rhs => rw [← List.takeWhile_append_dropWhile pyIsSpace l]
  rw [nonWsCount, nonWsCount, List.countP_append]
  have h0 : (l.takeWhile pyIsSpace).countP (fun c => !pyIsSpace c) = 0 := by
    rw [List.countP_eq_zero]
    intro a ha
    have := List.mem_takeWhile_imp ha
    simp [this]
  omega

theorem nonWsCount_reverse (l : PyStr) : nonWsCount l.reverse = nonWsCount l := by
  simp [nonWsCount, List.countP_reverse]

theorem nonWsCount_strip (s : PyStr) : nonWsCount (pyStrip s) = nonWsCount s := by
  unfold pyStrip
  rw [nonWsCount_reverse, nonWsCount_dropWhile, nonWsCount_reverse, nonWsCount_dropWhile]

theorem nonWsCount_collapse (l0 : PyStr) :
    nonWsCount (pyCollapseWs l0) = nonWsCount l0 := by
  suffices H : ∀ n : Nat, ∀ l : PyStr, l.length ≤ n →
      nonWsCount (pyCollapseWs l) = nonWsCount l from H l0.length l0 le_rfl
  intro n
  induction n with
  | zero =>
    intro l h
    have hl : l = [] := by
      cases l
      · rfl
      · simp at h
    subst hl
    rfl
  | succ n ih =>
    intro l h
    cases l with
    | nil => rfl
    | cons c r =>
      simp only [List.length_cons] at h
      by_cases hws : pyIsSpace c
      · rw [pyCollapseWs_cons_ws c r hws]
        have hd := (List.dropWhile_sublist (l := r) (p := pyIsSpace)).length_le
        have hih := ih (r.dropWhile pyIsSpace) (by omega)
        have hdw := nonWsCount_dropWhile r
        have h32 : pyIsSpace 32 = true := by decide
        simp only [nonWsCount, List.countP_cons] at hih hdw ⊢
        simp only [hws, h32]
        simp
        omega
      · have hws2 : pyIsSpace c = false := by simpa using hws
        rw [pyCollapseWs_cons_nws c r hws2]
        have hih := ih r (by omega)
        simp only [nonWsCount, List.countP_cons] at hih ⊢
        simp only [hws2]
        simp
        omega

theorem strip_eq_nil_iff (s : PyStr) : pyStrip s = [] ↔ nonWsCount s = 0 := by
  constructor
  · intro h
    rw [← nonWsCount_strip s, h]
    rfl
  · intro h
    have hall : ∀ c ∈ s, pyIsSpace c = true := by
      intro c hc
      have := List.countP_eq_zero.mp h c hc
      simpa using this
    unfold pyStrip
    rw [List.dropWhile_eq_nil_iff.mpr hall]
    rfl

theorem collapse_eq_nil_iff (l : PyStr) : pyCollapseWs l = [] ↔ l = [] := by
  cases l with
  | nil => simp [pyCollapseWs_nil]
  | cons c r =>
    by_cases h : pyIsSpace c
    · rw [pyCollapseWs_cons_ws c r h]
      simp
    · rw [pyCollapseWs_cons_nws c r (by simpa using h)]
      simp

theorem dropWhile_head_false (p : Nat → Bool) (l : PyStr) (h : l.dropWhile p ≠ []) :
    ∃ c cs, l.dropWhile p = c :: cs ∧ p c = false := by
  induction l with
  | nil => simp at h
  | cons a t ih =>
    by_cases hp : p a
    · rw [List.dropWhile_cons, if_pos hp] at h ⊢
      exact ih h
    · rw [List.dropWhile_cons, if_neg hp]
      exact ⟨a, t, rfl, by simpa using hp⟩

theorem getLast?_dropWhile (p : Nat → Bool) (l : PyStr) (h : l.dropWhile p ≠ []) :
    (l.dropWhile p).getLast? = l.getLast? := by
  induction l with
  | nil => simp at h
  | cons a t ih =>
    by_cases hp : p a
    · rw [List.dropWhile_cons, if_pos hp] at h ⊢
      have ht : t ≠ [] := by
        intro he
        subst he
        simp at h
      rw [ih h]
      cases t with
      | nil => exact absurd rfl ht
      | cons d ds => rw [List.getLast?_cons_cons]
    · rw [List.dropWhile_cons, if_neg hp]

theorem getLast?_collapse (x0 : PyStr) (c : Nat) (hc : pyIsSpace c = false)
    (hl0 : x0.getLast? = some c) : (pyCollapseWs x0).getLast? = some c := by
  suffices H : ∀ n : Nat, ∀ x : PyStr, x.length ≤ n → x.getLast? = some c →
      (pyCollapseWs x).getLast? = some c from H x0.length x0 le_rfl hl0
  intro n
  induction n with
  | zero =>
    intro x h hlast
    have hx : x = [] := by
      cases x
      · rfl
      · simp at h
    subst hx
    simp at hlast
  | succ n ih =>
    intro x h hlast
    cases x with
    | nil => simp at hlast
    | cons a r =>
      simp only [List.length_cons] at h
      by_cases hws : pyIsSpace a
      · rw [pyCollapseWs_cons_ws a r hws]
        cases r with
        | nil =>
          simp at hlast
          subst hlast
          rw [hws] at hc
          simp at hc
        | cons d t =>
          have hlast2 : (d :: t).getLast? = some c := by
            rwa [List.getLast?_cons_cons] at hlast
          have hcmem : c ∈ d :: t := List.mem_of_mem_getLast? hlast2
          have hdw_ne : (d :: t).dropWhile pyIsSpace ≠ [] := by
            intro he
            have hall := List.dropWhile_eq_nil_iff.mp he
            rw [hall c hcmem] at hc
            simp at hc
          have h3 := getLast?_dropWhile pyIsSpace (d :: t) hdw_ne
          rw [hlast2] at h3
          have hd := (List.dropWhile_sublist (l := d :: t) (p := pyIsSpace)).length_le
          simp only [List.length_cons] at hd h
          have hih := ih ((d :: t).dropWhile pyIsSpace) (by omega) h3
          have hne : pyCollapseWs ((d :: t).dropWhile pyIsSpace) ≠ [] := by
            intro he
            rw [he] at hih
            simp at hih
          obtain ⟨y, ys, hys⟩ := exists_cons_of_ne_nil hne
          rw [hys] at hih
          rw [hys, List.getLast?_cons_cons]
          exact hih
      · have hws2 : pyIsSpace a = false := by simpa using hws
        rw [pyCollapseWs_cons_nws a r hws2]
        cases r with
        | nil =>
          simp at hlast
          subst hlast
          simpa [pyCollapseWs_nil] using rfl
        | cons d t =>
          have hlast2 : (d :: t).getLast? = some c := by
            rwa [List.getLast?_cons_cons] at hlast
          simp only [List.length_cons] at h
          have hih := ih (d :: t) (by simp; omega) hlast2
          have hne : pyCollapseWs (d :: t) ≠ [] := by
            intro he
            have := (collapse_eq_nil_iff (d :: t)).mp he
            simp at this
          obtain ⟨y, ys, hys⟩ := exists_cons_of_ne_nil hne
          rw [hys] at hih
          rw [hys, List.getLast?_cons_cons]
          exact hih

theorem dropWhile_eq_self_of_head (p : Nat → Bool) (l : PyStr) (c : Nat)
    (hc : l.head? = some c) (hpc : p c = false) : l.dropWhile p = l := by
  cases l with
  | nil => rfl
  | cons a t =>
    simp at hc
    subst hc
    rw [List.dropWhile_cons, if_neg (by simp [hpc])]

theorem strip_facts (t : PyStr) (h : pyStrip t ≠ []) :
    ∃ c1 c2, (pyStrip t).head? = some c1 ∧ pyIsSpace c1 = false ∧
      (pyStrip t).getLast? = some c2 ∧ pyIsSpace c2 = false := by
  have hvne : (t.dropWhile pyIsSpace).reverse.dropWhile pyIsSpace ≠ [] := by
    intro he
    unfold pyStrip at h
    rw [he] at h
    simp at h
  have hune : t.dropWhile pyIsSpace ≠ [] := by
    intro he
    rw [he] at hvne
    simp at hvne
  obtain ⟨c, cs, hcs, hcws⟩ := dropWhile_head_false pyIsSpace
    (t.dropWhile pyIsSpace).reverse hvne
  obtain ⟨d, ds, hds, hdws⟩ := dropWhile_head_false pyIsSpace t hune
  have hvlast : ((t.dropWhile pyIsSpace).reverse.dropWhile pyIsSpace).getLast? =
      (t.dropWhile pyIsSpace).reverse.getLast? := getLast?_dropWhile _ _ hvne
  have hulast : (t.dropWhile pyIsSpace).reverse.getLast? = some d := by
    rw [List.getLast?_reverse, hds]
    rfl
  refine ⟨d, c, ?_, hdws, ?_, hcws⟩
  · show (pyStrip t).head? = some d
    unfold pyStrip
    rw [List.head?_reverse, hvlast, hulast]
  · show (pyStrip t).getLast? = some c
    unfold pyStrip
    rw [List.getLast?_reverse, hcs]
    rfl

theorem strip_collapse_strip (t : PyStr) :
    pyStrip (pyCollapseWs (pyStrip t)) = pyCollapseWs (pyStrip t) := by
  by_cases h : pyStrip t = []
  · rw [h]
    rfl
  · obtain ⟨c1, c2, hh, hns1, hl, hns2⟩ := strip_facts t h
    obtain ⟨xs, hx⟩ : ∃ xs, pyStrip t = c1 :: xs := by
      cases hx : pyStrip t with
      | nil => exact absurd hx h
      | cons a l =>
        rw [hx] at hh
        simp at hh
        subst hh
        exact ⟨l, rfl⟩
    have hcol : pyCollapseWs (pyStrip t) = c1 :: pyCollapseWs xs := by
      rw [hx]
      exact pyCollapseWs_cons_nws c1 xs hns1
    have hlast := getLast?_collapse (pyStrip t) c2 hns2 hl
    have h1 : (pyCollapseWs (pyStrip t)).dropWhile pyIsSpace = pyCollapseWs (pyStrip t) :=
      dropWhile_eq_self_of_head pyIsSpace _ c1 (by rw [hcol]; rfl) hns1
    have h2 : (pyCollapseWs (pyStrip t)).reverse.dropWhile pyIsSpace =
        (pyCollapseWs (pyStrip t)).reverse :=
      dropWhile_eq_self_of_head pyIsSpace _ c2 (by rw [List.head?_reverse]; exact hlast) hns2
    have hdef : pyStrip (pyCollapseWs (pyStrip t)) =
        (((pyCollapseWs (pyStrip t)).dropWhile pyIsSpace).reverse.dropWhile pyIsSpace).reverse :=
      rfl
    rw [hdef, h1, h2, List.reverse_reverse]

theorem nfkcChar_ws (c : Nat) (h : pyIsSpace c = true) :
    ∀ d ∈ nfkcChar c, pyIsSpace d = true := by
  intro d hd
  by_cases h160 : c = 160
  · subst h160
    simp [nfkcChar] at hd
    subst hd
    decide
  · by_cases h178 : c = 178
    · subst h178
      exact absurd h (by decide)
    · by_cases hfb : c = 0xFB01
      · subst hfb
        exact absurd h (by decide)
      · simp [nfkcChar, h160, h178, hfb] at hd
        subst hd
        exact h

theorem nfkcChar_nonWs (c : Nat) (h : pyIsSpace c = false) :
    nfkcChar c ≠ [] ∧ ∀ d ∈ nfkcChar c, pyIsSpace d = false := by
  by_cases h160 : c = 160
  · subst h160
    exact absurd h (by decide)
  · by_cases h178 : c = 178
    · subst h178
      refine ⟨by simp [nfkcChar], ?_⟩
      intro d hd
      simp [nfkcChar] at hd
      subst hd
      decide
    · by_cases hfb : c = 0xFB01
      · subst hfb
        refine ⟨by simp [nfkcChar], ?_⟩
        intro d hd
        simp [nfkcChar] at hd
        rcases hd with hd | hd <;> subst hd <;> decide
      · refine ⟨by simp [nfkcChar, h160, h178, hfb], ?_⟩
        intro d hd
        simp [nfkcChar, h160, h178, hfb] at hd
        subst hd
        exact h

theorem nfkc_all_ws (s : PyStr) (h : s.all pyIsSpace = true) :
    (nfkcStr s).all pyIsSpace = true := by
  induction s with
  | nil => rfl
  | cons c r ih =>
    simp only [List.all_cons, Bool.and_eq_true] at h
    simp only [nfkcStr, List.flatMap_cons, List.all_append, Bool.and_eq_true]
    constructor
    · rw [List.all_eq_true]
      exact nfkcChar_ws c h.1
    · exact ih h.2

theorem nfkc_exists_nonWs (s : PyStr) (h : ¬ s.all pyIsSpace = true) :
    ¬ (nfkcStr s).all pyIsSpace = true := by
  simp only [List.all_eq_true, not_forall] at h ⊢
  obtain ⟨c, hc, hcw⟩ := h
  have hcw2 : pyIsSpace c = false := by simpa using hcw
  obtain ⟨hne, hall⟩ := nfkcChar_nonWs c hcw2
  obtain ⟨d, hd⟩ := List.exists_mem_of_ne_nil _ hne
  refine ⟨d, List.mem_flatMap.mpr ⟨c, hc, hd⟩, by simp [hall d hd]⟩

theorem allWs_iff_nonWsCount (s : PyStr) :
    s.all pyIsSpace = true ↔ nonWsCount s = 0 := by
  rw [List.all_eq_true, nonWsCount, List.countP_eq_zero]
  constructor
  · intro h a ha
    simp [h a ha]
  · intro h a ha
    have := h a ha
    simpa using this

theorem insertSorted_perm {α : Type} (le : α → α → Bool) (a : α) (l : List α) :
    (insertSorted le a l).Perm (a :: l) := by
  induction l with
  | nil => exact List.Perm.refl _
  | cons b bs ih =>
    unfold insertSorted
    by_cases h : le a b
    · rw [if_pos h]
    · rw [if_neg h]
      exact (ih.cons b).trans (List.Perm.swap a b bs)

theorem sortByLe_perm {α : Type} (le : α → α → Bool) (l : List α) :
    (sortByLe le l).Perm l := by
  induction l with
  | nil => exact List.Perm.refl _
  | cons a bs ih =>
    unfold sortByLe at *
    simp only [List.foldr_cons]
    exact (insertSorted_perm le a _).trans (ih.cons a)

theorem insertSorted_pairwise {α : Type} (le : α → α → Bool)
    (htot : ∀ x y, le x y = true ∨ le y x = true)
    (htrans : ∀ x y z, le x y = true → le y z = true → le x z = true)
    (a : α) (l : List α) (hl : l.Pairwise (fun x y => le x y = true)) :
    (insertSorted le a l).Pairwise (fun x y => le x y = true) := by
  induction l with
  | nil => simp [insertSorted]
  | cons b bs ih =>
    rw [List.pairwise_cons] at hl
    unfold insertSorted
    by_cases h : le a b
    · rw [if_pos h]
      rw [List.pairwise_cons]
      refine ⟨?_, List.pairwise_cons.mpr hl⟩
      intro y hy
      rcases List.mem_cons.mp hy with hy | hy
      · subst hy
        exact h
      · exact htrans a b y h (hl.1 y hy)
    · rw [if_neg h]
      have hba : le b a = true := by
        rcases htot a b with hab | hba
        · exact absurd hab h
        · exact hba
      rw [List.pairwise_cons]
      refine ⟨?_, ih hl.2⟩
      intro y hy
      have hy2 : y ∈ a :: bs := ((insertSorted_perm le a bs).mem_iff).mp hy
      rcases List.mem_cons.mp hy2 with hy2 | hy2
      · subst hy2
        exact hba
      · exact hl.1 y hy2

theorem sortByLe_pairwise {α : Type} (le : α → α → Bool)
    (htot : ∀ x y, le x y = true ∨ le y x = true)
    (htrans : ∀ x y z, le x y = true → le y z = true → le x z = true)
    (l : List α) : (sortByLe le l).Pairwise (fun x y => le x y = true) := by
  induction l with
  | nil => simp [sortByLe]
  | cons a bs ih =>
    unfold sortByLe at *
    simp only [List.foldr_cons]
    exact insertSorted_pairwise le htot htrans a _ ih

theorem tsLE_total : ∀ x y : Option Int, tsLE x y = true ∨ tsLE y x = true := by
  intro x y
  cases x <;> cases y <;> simp [tsLE] <;> omega

theorem tsLE_trans : ∀ x y z : Option Int,
    tsLE x y = true → tsLE y z = true → tsLE x z = true := by
  intro x y z
  cases x <;> cases y <;> cases z <;> simp [tsLE] <;> omega

theorem dropDupFirstKeyAux_sublist {κ ρ : Type} [DecidableEq κ] (key : ρ → κ) :
    ∀ (seen : List κ) (l : List ρ), (dropDupFirstKeyAux key seen l).Sublist l := by
  intro seen l
  induction l generalizing seen with
  | nil => simp [dropDupFirstKeyAux]
  | cons r rs ih =>
    unfold dropDupFirstKeyAux
    by_cases h : key r ∈ seen
    · rw [if_pos h]
      exact List.Sublist.cons r (ih seen)
    · rw [if_neg h]
      exact List.Sublist.cons₂ r (ih (key r :: seen))

theorem dropDupFirstKeyAux_keys {κ ρ : Type} [DecidableEq κ] (key : ρ → κ) :
    ∀ (seen : List κ) (l : List ρ),
      ((dropDupFirstKeyAux key seen l).map key).Nodup ∧
      ∀ k ∈ (dropDupFirstKeyAux key seen l).map key, k ∉ seen := by
  intro seen l
  induction l generalizing seen with
  | nil => simp [dropDupFirstKeyAux]
  | cons r rs ih =>
    unfold dropDupFirstKeyAux
    by_cases h : key r ∈ seen
    · rw [if_pos h]
      exact ih seen
    · rw [if_neg h]
      have hrec := ih (key r :: seen)
      constructor
      · rw [List.map_cons, List.nodup_cons]
        constructor
        · intro hmem
          exact (hrec.2 (key r) hmem) (List.mem_cons_self _ _)
        · exact hrec.1
      · intro k hk
        rw [List.map_cons, List.mem_cons] at hk
        rcases hk with hk | hk
        · subst hk
          exact h
        · intro hs
          exact (hrec.2 k hk) (List.mem_cons_of_mem _ hs)

theorem filter_dropDupFirstKeyAux {κ ρ : Type} [DecidableEq κ] (key : ρ → κ) (k : κ) :
    ∀ (seen : List κ) (l : List ρ),
      (dropDupFirstKeyAux key seen l).filter (fun r => key r == k) =
        if k ∈ seen then [] else (l.filter (fun r => key r == k)).take 1 := by
  intro seen l
  induction l generalizing seen with
  | nil => simp [dropDupFirstKeyAux]
  | cons r rs ih =>
    unfold dropDupFirstKeyAux
    by_cases hk : key r = k
    · by_cases hseen : k ∈ seen
      · rw [if_pos (hk ▸ hseen), ih seen, if_pos hseen, if_pos hseen]
      · rw [if_neg (hk ▸ hseen)]
        rw [List.filter_cons_of_pos (by simp [hk]), ih (key r :: seen),
          if_pos (by simp [hk]), if_neg hseen,
          List.filter_cons_of_pos (by simp [hk])]
        simp
    · by_cases hseen2 : key r ∈ seen
      · rw [if_pos hseen2, ih seen, List.filter_cons_of_neg (by simp [hk])]
      · rw [if_neg hseen2]
        rw [List.filter_cons_of_neg (by simp [hk]), ih (key r :: seen)]
        by_cases hks : k ∈ seen
        · rw [if_pos (List.mem_cons_of_mem _ hks), if_pos hks]
        · have hnc : k ∉ key r :: seen := by
            intro hmm
            rcases List.mem_cons.mp hmm with he | he
            · exact hk he.symm
            · exact hks he
          rw [if_neg hnc, if_neg hks, List.filter_cons_of_neg (by simp [hk])]

theorem filter_dropDupFirstKey {κ ρ : Type} [DecidableEq κ] (key : ρ → κ) (k : κ)
    (l : List ρ) :
    (dropDupFirstKey key l).filter (fun r => key r == k) =
      (l.filter (fun r => key r == k)).take 1 := by
  unfold dropDupFirstKey
  rw [filter_dropDupFirstKeyAux key k [] l, if_neg (List.not_mem_nil k)]

theorem perm_pair {α : Type} {l : List α} {a b : α} (h : l.Perm [a, b]) :
    l = [a, b] ∨ l = [b, a] := by
  have hlen := h.length_eq
  simp at hlen
  obtain ⟨x, l2, hx⟩ : ∃ x l2, l = x :: l2 := by
    cases l with
    | nil => simp at hlen
    | cons x l2 => exact ⟨x, l2, rfl⟩
  obtain ⟨y, l3, hy⟩ : ∃ y l3, l2 = y :: l3 := by
    cases l2 with
    | nil =>
      rw [hx] at hlen
      simp at hlen
    | cons y l3 => exact ⟨y, l3, rfl⟩
  have hl3 : l3 = [] := by
    cases l3 with
    | nil => rfl
    | cons z l4 =>
      rw [hx, hy] at hlen
      simp at hlen
  subst hl3
  subst hy
  subst hx
  have hx_mem : x ∈ [a, b] := h.mem_iff.mp (List.mem_cons_self x [y])
  by_cases hab : a = b
  · have hy_mem : y ∈ [a, b] := h.mem_iff.mp (by simp)
    simp [← hab] at hx_mem hy_mem
    exact Or.inl (by simp [hx_mem, hy_mem, ← hab])
  · simp at hx_mem
    rcases hx_mem with hx_mem | hx_mem
    · have h2 : [y].Perm [b] := by
        rw [hx_mem] at h
        exact h.cons_inv
      have hy : y = b := by
        have := h2.mem_iff.mp (List.mem_cons_self y [])
        simpa using this
      exact Or.inl (by rw [hx_mem, hy])
    · have h2 : [y].Perm [a] := by
        have hswap : ([x, y] : List α).Perm [b, a] := h.trans (List.Perm.swap b a [])
        rw [hx_mem] at hswap
        exact hswap.cons_inv
      have hy : y = a := by
        have := h2.mem_iff.mp (List.mem_cons_self y [])
        simpa using this
      exact Or.inr (by rw [hx_mem, hy])

theorem fk_missing_eq_spec (child parent : DF) (ck pk : PyStr)
    (ic ip : Nat) (hc : child.colIdx ck = some ic) (hp : parent.colIdx pk = some ip) :
    fk_missing_count child parent ck pk =
      some (specFkDistinctMissing child parent ck pk) := by
  unfold fk_missing_count
  rw [hc, hp]
  simp only [Option.some_inj]
  unfold specFkDistinctMissing
  have hfil : Finset.filter
      (fun v => v ≠ Val.vnull ∧ v ∉ (parent.colVals pk).toFinset)
      (child.colVals ck).toFinset =
      ((child.colVals ck).filter (fun v =>
        !(v == Val.vnull) && !(parent.colVals pk).contains v)).toFinset := by
    rw [List.toFinset_filter]
    symm
    apply Finset.filter_congr
    intro v _
    simp only [Bool.and_eq_true, Bool.not_eq_true', beq_eq_false_iff_ne, List.mem_toFinset]
    constructor
    · intro ⟨h1, h2⟩
      refine ⟨h1, ?_⟩
      intro hmem
      rw [← List.elem_iff] at hmem
      rw [show (parent.colVals pk).contains v = (parent.colVals pk).elem v from rfl] at h2
      rw [hmem] at h2
      simp at h2
    · intro ⟨h1, h2⟩
      refine ⟨h1, ?_⟩
      rw [show (parent.colVals pk).contains v = (parent.colVals pk).elem v from rfl]
      by_contra hcon
      simp only [Bool.not_eq_false] at hcon
      exact h2 (List.elem_iff.mp hcon)
  rw [hfil]
  norm_cast

/-- C2: load_json_flex never attempts a line-per-record parse.  Its first
action is json.load on the whole payload, which RAISES on a payload of
two newline separated JSON records (Extra data), and no caller catches
this inside the loader; the claim and the module docstring promise an
ndjson path tried first.  The theorem evaluates the embedded loader on
the two-record payload: whatever the read_json fallback does, the result
is the error, not a two-row table. -/
theorem claim_C2_whole_payload_first (read_json : Val → Option DF) :
    load_json_flex read_json
      [vdictOf [(str2py "a", Val.vint 1)], vdictOf [(str2py "a", Val.vint 2)]] =
      Except.error () := rfl

/-- C3 counterexample: on the SUPERSCRIPT TWO input the candidate
(the empty string) is rejected, and the function returns the NFKC
normalization (the ASCII digit two) instead of the original string, so
the claim that the original is kept is false. -/
theorem claim_C3_counterexample :
    fix_text_mojibake (Val.vstr (str2py "²")) = some (str2py "2") ∧
      some (str2py "2") ≠ some (str2py "²") := by
  constructor
  · decide
  · decide

/-- C3 amended: the candidate is accepted exactly when it has at least as
many (the code tests with a large-or-equal comparison, not strictly more)
non-ASCII characters as the original, which happens exactly when the
candidate IS the original (pure ASCII inputs round-trip); in every case
the fallback repair returns the NFKC normalization of the original, not
the original itself. -/
theorem claim_C3_amended (s : PyStr) :
    fix_text_mojibake (Val.vstr s) = some (nfkcStr s) ∧
    (looks_more_unicode (decodeUtf8Ignore (encodeLatin1Ignore s)) s = true ↔
      decodeUtf8Ignore (encodeLatin1Ignore s) = s) := by
  constructor
  · show some (fixTextCore (pyStrOf (Val.vstr s))) = _
    rw [show pyStrOf (Val.vstr s) = s from rfl, fixTextCore_eq_nfkc]
  · exact looks_more_unicode_iff s

/-- C4: refuted as stated — the sanitizer does not re-encode every column
with a sequence cell.  On a table whose only column holds the list cell
with entries 1 and 2, the detection pass does select the column, but the
encoding lambda's pd.notna truth test raises ValueError (an elementwise
array of two booleans has no truth value), so the program aborts instead
of returning the re-encoded column; on a dict-bearing column the claimed
re-encoding does happen (non-null cells to JSON text, nulls kept null,
the other column untouched). -/
theorem claim_C4_sanitizer_crashes :
    sanitize_nested_columns
        (DF.mk [str2py "a"] [[vlistOf [Val.vint 1, Val.vint 2]]]) =
      Except.error () ∧
    sanitize_nested_columns
        (DF.mk [str2py "a", str2py "b"]
          [[vdictOf [(str2py "k", Val.vint 1)], Val.vint 7],
           [Val.vnull, Val.vint 8]]) =
      Except.ok (DF.mk [str2py "a", str2py "b"]
          [[Val.vstr (jsonDumps (vdictOf [(str2py "k", Val.vint 1)])), Val.vint 7],
           [Val.vnull, Val.vint 8]]) :=
  ⟨rfl, rfl⟩

/-- C5: the shared deduplication step keeps the natural key unique (for
both the sorted and the order-preserving variant), preserves input order
when no recency column exists, and, when among the rows of a key there
are exactly two with distinct present timestamps, retains exactly the
row with the later timestamp, whole and unmerged. -/
theorem claim_C5_dedupe {κ ρ : Type} [DecidableEq κ] (key : ρ → κ) (ts : ρ → Option Int)
    (l : List ρ) :
    (∀ b : Bool, ((dedupeLatest b key ts l).map key).Nodup) ∧
    (dedupeLatest false key ts l).Sublist l ∧
    (∀ (r1 r2 : ρ) (t1 t2 : Int) (k : κ), ts r1 = some t1 → ts r2 = some t2 → t2 < t1 →
      (l.filter (fun r => key r == k)).Perm [r1, r2] →
      (dedupeLatest true key ts l).filter (fun r => key r == k) = [r1]) := by
  refine ⟨?_, ?_, ?_⟩
  · intro b
    show ((dropDupFirstKeyAux key [] _).map key).Nodup
    exact (dropDupFirstKeyAux_keys key [] _).1
  · show (dropDupFirstKeyAux key [] l).Sublist l
    exact dropDupFirstKeyAux_sublist key [] l
  · intro r1 r2 t1 t2 k ht1 ht2 hlt hperm
    have htot : ∀ x y : ρ, (fun a b => tsLE (ts a) (ts b)) x y = true ∨
        (fun a b => tsLE (ts a) (ts b)) y x = true := fun x y => tsLE_total _ _
    have htrans : ∀ x y z : ρ, (fun a b => tsLE (ts a) (ts b)) x y = true →
        (fun a b => tsLE (ts a) (ts b)) y z = true →
        (fun a b => tsLE (ts a) (ts b)) x z = true := fun x y z => tsLE_trans _ _ _
    have hsorted := sortByLe_pairwise (fun a b => tsLE (ts a) (ts b)) htot htrans l
    have hperm2 : ((sortByLe (fun a b => tsLE (ts a) (ts b)) l).filter
        (fun r => key r == k)).Perm [r1, r2] :=
      ((sortByLe_perm (fun a b => tsLE (ts a) (ts b)) l).filter _).trans hperm
    have hpair : ((sortByLe (fun a b => tsLE (ts a) (ts b)) l).filter
        (fun r => key r == k)).Pairwise (fun x y => tsLE (ts x) (ts y) = true) :=
      List.Pairwise.sublist (List.filter_sublist _) hsorted
    have hded : dedupeLatest true key ts l =
        dropDupFirstKey key (sortByLe (fun a b => tsLE (ts a) (ts b)) l) := rfl
    rcases perm_pair hperm2 with heq | heq
    · rw [hded, filter_dropDupFirstKey, heq]
      rfl
    · exfalso
      rw [heq] at hpair
      have hbad := (List.pairwise_cons.mp hpair).1 r1 (List.mem_cons_self r1 [])
      rw [ht1, ht2] at hbad
      simp [tsLE] at hbad
      omega

/-- C5 witness: the winner property of the theorem applied to a concrete
three-row table with a duplicated key. -/
theorem claim_C5_witness :
    (dedupeLatest true (fun p : Nat × Option Int => p.1) (fun p => p.2)
      [(1, some 3), (2, some 9), (1, some 5)]).filter (fun r => r.1 == 1) =
      [(1, some 5)] := by
  exact (claim_C5_dedupe (fun p : Nat × Option Int => p.1) (fun p => p.2)
    [(1, some 3), (2, some 9), (1, some 5)]).2.2
    (1, some 5) (1, some 3) 5 3 1 rfl rfl (by decide) (by decide)

/-- C6 counterexample: with its staging source empty, build_dim_users
returns the warning and an empty frame with an EMPTY writes list: no
empty curated table is written, refuting the claim that every builder
emits one. -/
theorem claim_C6_counterexample :
    build_dim_users (fun _ => none) (PDate.mk 2026 10 12) [] (DF.mk [] []) =
      Except.ok (BuildOut.mk [] ["[WARN] stg_user_data empty or missing"] (DF.mk [] [])) :=
  rfl

/-- C6 amended: when their staging sources are absent or empty, the user
dimension builder and the order fact builder log a warning and return an
empty frame WITHOUT writing any curated table; the run continues (no
error is raised). -/
theorem claim_C6_amended :
    (∀ (to_datetime : Val → Option PTimestamp) (today : PDate)
        (gm : List (PyStr × PyStr)) (stg : DF), stg.isEmptyDF = true →
      build_dim_users to_datetime today gm stg =
        Except.ok (BuildOut.mk [] ["[WARN] stg_user_data empty or missing"] (DF.mk [] []))) ∧
    (∀ (to_datetime : Val → Option PTimestamp) (tables : List DF),
      (∀ t ∈ tables, t.isEmptyDF = true) →
      build_fact_orders to_datetime tables =
        Except.ok (BuildOut.mk [] ["[WARN] no order tables found"] (DF.mk [] []))) := by
  constructor
  · intro dt today gm stg hstg
    unfold build_dim_users
    rw [if_pos hstg]
  · intro dt tables hall
    have hparts : tables.filter (fun t => !t.isEmptyDF) = [] := by
      rw [List.filter_eq_nil_iff]
      intro t ht
      simp [hall t ht]
    show (if (tables.filter (fun t => !t.isEmptyDF)).isEmpty then _ else _) = _
    rw [hparts]
    rfl

/-- C6 witness: the order-fact conjunct of the theorem applied to a list
holding one empty staging frame. -/
theorem claim_C6_witness :
    (∀ t ∈ [DF.mk [] []], t.isEmptyDF = true) ∧
    build_fact_orders (fun _ => none) [DF.mk [] []] =
      Except.ok (BuildOut.mk [] ["[WARN] no order tables found"] (DF.mk [] [])) :=
  ⟨by decide, claim_C6_amended.2 (fun _ => none) [DF.mk [] []] (by decide)⟩

/-- C7 counterexample: for a child with two rows of the key x plus a null
row and a parent without x, the pandas check count_fk_mismatches returns
3 (rows, nulls stringified and counted), while the distinct non-null
missing count the claim describes is 1. -/
theorem claim_C7_counterexample :
    count_fk_mismatches
        (DF.mk [str2py "k"] [[Val.vstr (str2py "x")], [Val.vstr (str2py "x")], [Val.vnull]])
        (DF.mk [str2py "k"] [[Val.vstr (str2py "p")]]) (str2py "k") (str2py "k") = 3 ∧
    specFkDistinctMissing
        (DF.mk [str2py "k"] [[Val.vstr (str2py "x")], [Val.vstr (str2py "x")], [Val.vnull]])
        (DF.mk [str2py "k"] [[Val.vstr (str2py "p")]]) (str2py "k") (str2py "k") = 1 := by
  constructor
  · decide
  · decide

/-- C7 amended: the SQL profiler check fk_missing_count computes exactly
the count the claim describes (distinct child keys, nulls excluded,
missing from the parent), while the pandas validation check
count_fk_mismatches counts child ROWS whose str rendering is absent from
the str renderings of the parent keys, with multiplicity and with nulls
counted through their string form; both return their error value when a
key column is absent. -/
theorem claim_C7_amended (child parent : DF) (ck pk : PyStr) (ic ip : Nat)
    (hc : child.colIdx ck = some ic) (hp : parent.colIdx pk = some ip) :
    fk_missing_count child parent ck pk =
      some (specFkDistinctMissing child parent ck pk) ∧
    count_fk_mismatches child parent ck pk =
      ((child.colVals ck).countP (fun v =>
        !((parent.colVals pk).map pyStrOf).contains (pyStrOf v)) : Nat) := by
  constructor
  · exact fk_missing_eq_spec child parent ck pk ic ip hc hp
  · unfold count_fk_mismatches
    rw [hc, hp]
    simp only [Option.isNone_some, Bool.or_self, Bool.false_eq_true, if_false]
    rw [List.countP_eq_length_filter]

/-- C7 witness: the profiler conjunct of the theorem at concrete tables. -/
theorem claim_C7_witness :
    (DF.mk [str2py "k"] [[Val.vstr (str2py "x")]]).colIdx (str2py "k") = some 0 ∧
    fk_missing_count (DF.mk [str2py "k"] [[Val.vstr (str2py "x")]])
        (DF.mk [str2py "k"] [[Val.vstr (str2py "p")]]) (str2py "k") (str2py "k") =
      some (specFkDistinctMissing (DF.mk [str2py "k"] [[Val.vstr (str2py "x")]])
        (DF.mk [str2py "k"] [[Val.vstr (str2py "p")]]) (str2py "k") (str2py "k")) :=
  ⟨by decide, (claim_C7_amended (DF.mk [str2py "k"] [[Val.vstr (str2py "x")]])
    (DF.mk [str2py "k"] [[Val.vstr (str2py "p")]]) (str2py "k") (str2py "k") 0 0
    (by decide) (by decide)).1⟩

/-- C8: card masking keeps only the digits of the rendering; with at least
four digits it returns the fixed mask prefix followed by exactly the last
four digits (a four character suffix), with fewer it returns null; the
two frozen examples evaluate as the claim states. -/
theorem claim_C8_mask (s : PyStr) :
    (4 ≤ (s.filter pyIsDigitChar).length →
      mask_credit_card (Val.vstr s) = some (str2py "**** **** **** " ++
        (s.filter pyIsDigitChar).drop ((s.filter pyIsDigitChar).length - 4)) ∧
      ((s.filter pyIsDigitChar).drop ((s.filter pyIsDigitChar).length - 4)).length = 4) ∧
    ((s.filter pyIsDigitChar).length < 4 → mask_credit_card (Val.vstr s) = none) ∧
    mask_credit_card (Val.vstr (str2py "4111-1111-1111-2345")) =
      some (str2py "**** **** **** 2345") ∧
    mask_credit_card (Val.vstr (str2py "12")) = none := by
  refine ⟨?_, ?_, by decide, by decide⟩
  · intro h4
    constructor
    · show (if 4 ≤ (s.filter pyIsDigitChar).length then _ else _) = _
      rw [if_pos h4]
      rfl
    · rw [List.length_drop]
      omega
  · intro hlt
    show (if 4 ≤ (s.filter pyIsDigitChar).length then _ else _) = _
    rw [if_neg (by omega)]

/-- C8 witness: the masking equation of the theorem at the frozen card
number. -/
theorem claim_C8_witness :
    4 ≤ ((str2py "4111-1111-1111-2345").filter pyIsDigitChar).length ∧
    mask_credit_card (Val.vstr (str2py "4111-1111-1111-2345")) =
      some (str2py "**** **** **** " ++
        ((str2py "4111-1111-1111-2345").filter pyIsDigitChar).drop
          (((str2py "4111-1111-1111-2345").filter pyIsDigitChar).length - 4)) :=
  ⟨by decide, ((claim_C8_mask (str2py "4111-1111-1111-2345")).1 (by decide)).1⟩

/-- C9 counterexample: with no correction map loaded, a value carrying
surrounding whitespace is returned STRIPPED, not unchanged, refuting the
identity part of the claim. -/
theorem claim_C9_counterexample :
    apply_geo_fixes [] (Val.vstr (str2py " Paris ")) = some (str2py "Paris") ∧
      some (str2py "Paris") ≠ some (str2py " Paris ") := by
  constructor
  · decide
  · decide

/-- C9 amended: on non-null input the correction works on the STRIPPED str
rendering: an exact map hit wins, then the first case-insensitive hit,
and otherwise the stripped rendering itself is returned (so with no map
loaded the function returns the stripped input: the identity exactly on
already-trimmed strings). -/
theorem claim_C9_amended (gm : List (PyStr × PyStr)) (val : Val) (hval : val ≠ Val.vnull) :
    (∀ p, gm.find? (fun q => q.1 == pyStrip (pyStrOf val)) = some p →
      apply_geo_fixes gm val = some p.2) ∧
    (gm.find? (fun q => q.1 == pyStrip (pyStrOf val)) = none →
      ∀ p, gm.find? (fun q => pyLower q.1 == pyLower (pyStrip (pyStrOf val))) = some p →
        apply_geo_fixes gm val = some p.2) ∧
    (gm.find? (fun q => q.1 == pyStrip (pyStrOf val)) = none →
      gm.find? (fun q => pyLower q.1 == pyLower (pyStrip (pyStrOf val))) = none →
      apply_geo_fixes gm val = some (pyStrip (pyStrOf val))) ∧
    apply_geo_fixes [] val = some (pyStrip (pyStrOf val)) := by
  have hbody : ∀ gm' : List (PyStr × PyStr), apply_geo_fixes gm' val =
      (match gm'.find? (fun q => q.1 == pyStrip (pyStrOf val)) with
       | some p => some p.2
       | none =>
         match gm'.find? (fun q => pyLower q.1 == pyLower (pyStrip (pyStrOf val))) with
         | some p => some p.2
         | none => some (pyStrip (pyStrOf val))) := by
    intro gm'
    cases val with
    | vnull => exact absurd rfl hval
    | vbool b => rfl
    | vint n => rfl
    | vstr s => rfl
    | vlist xs => rfl
    | vdict m => rfl
    | vts t => rfl
    | vdate d => rfl
  refine ⟨?_, ?_, ?_, ?_⟩
  · intro p hp
    rw [hbody gm, hp]
  · intro hn p hp
    rw [hbody gm, hn, hp]
  · intro hn1 hn2
    rw [hbody gm, hn1, hn2]
  · rw [hbody []]
    rfl

/-- C9 witness: the no-map conjunct of the theorem at a concrete value. -/
theorem claim_C9_witness :
    Val.vstr (str2py " Paris ") ≠ Val.vnull ∧
    apply_geo_fixes [] (Val.vstr (str2py " Paris ")) =
      some (pyStrip (pyStrOf (Val.vstr (str2py " Paris ")))) :=
  ⟨by decide, (claim_C9_amended [] (Val.vstr (str2py " Paris ")) (by decide)).2.2.2⟩

/-- C10: the unicode normalizer maps a string input to null exactly when
stripping and collapsing the input leaves the empty string (empty or
whitespace-only inputs), and on every other string input it returns a
nonempty result with no leading or trailing whitespace. -/
theorem claim_C10_normalizer (s : PyStr) :
    (pyCollapseWs (pyStrip s) = [] → normalize_unicode_text (Val.vstr s) = none) ∧
    (pyCollapseWs (pyStrip s) ≠ [] →
      ∃ r, normalize_unicode_text (Val.vstr s) = some r ∧ r ≠ [] ∧ pyStrip r = r) := by
  have hnorm : normalize_unicode_text (Val.vstr s) =
      (if (pyCollapseWs (pyStrip (nfkcStr (fixTextCore s)))).isEmpty then none
       else some (pyCollapseWs (pyStrip (nfkcStr (fixTextCore s))))) := rfl
  have hfix : fixTextCore s = nfkcStr s := fixTextCore_eq_nfkc s
  have hcond : ∀ u : PyStr, pyCollapseWs (pyStrip u) = [] ↔ u.all pyIsSpace = true := by
    intro u
    rw [collapse_eq_nil_iff, strip_eq_nil_iff, allWs_iff_nonWsCount]
  constructor
  · intro h0
    have hws : s.all pyIsSpace = true := (hcond s).mp h0
    have hws2 : (nfkcStr (nfkcStr s)).all pyIsSpace = true :=
      nfkc_all_ws _ (nfkc_all_ws _ hws)
    rw [hnorm, hfix, if_pos (by rw [List.isEmpty_iff]; exact (hcond _).mpr hws2)]
  · intro h0
    have hws : ¬ s.all pyIsSpace = true := fun hw => h0 ((hcond s).mpr hw)
    have hws2 : ¬ (nfkcStr (nfkcStr s)).all pyIsSpace = true :=
      nfkc_exists_nonWs _ (nfkc_exists_nonWs _ hws)
    have hne : pyCollapseWs (pyStrip (nfkcStr (nfkcStr s))) ≠ [] :=
      fun hee => hws2 ((hcond _).mp hee)
    refine ⟨pyCollapseWs (pyStrip (nfkcStr (nfkcStr s))), ?_, hne, ?_⟩
    · rw [hnorm, hfix, if_neg (by simpa [List.isEmpty_iff] using hne)]
    · exact strip_collapse_strip (nfkcStr (nfkcStr s))

/-- C10 witness: both directions of the theorem at concrete inputs, a
whitespace-only string and a padded two-word string. -/
theorem claim_C10_witness :
    normalize_unicode_text (Val.vstr (str2py "  ")) = none ∧
    (∃ r, normalize_unicode_text (Val.vstr (str2py " a  b ")) = some r ∧ r ≠ [] ∧
      pyStrip r = r) :=
  ⟨(claim_C10_normalizer (str2py "  ")).1 (by decide),
    (claim_C10_normalizer (str2py " a  b ")).2 (by decide)⟩

end Shopzada
